import Mathlib

/-!
Verification of the simple_fs image packer/inspector
(`scripts/make_init_simple_fs.py`).

The script packs a directory tree into a flat block-device image:
a 16-byte image header (`b"RAMDISK\0"` + little-endian entry count +
4 reserved bytes), followed by one record per surviving entry
(32-byte entry header, name block aligned to 4 bytes, data block aligned
to 512 bytes), the whole image padded with zero bytes to a 512-byte
multiple.  `inspect_simple_fs` walks such an image and reports, per
entry, its kind, name, data length and mode.

Shallow embedding conventions:
* bytes are `Nat` (each value below 256 in every image the packer emits);
  byte strings are `List Nat`;
* the source tree is a `List SrcItem`: the set of paths `Path.rglob`
  would enumerate, each with its kind, raw content and on-disk mode
  (the mode is recorded to show the packer never reads it);
* Python's `sorted` on `Path` objects compares paths by their tuple of
  components (`PurePath.__lt__` is lexicographic over the parts list,
  each part by code points — so `a` < `a/x` < `a.b`); it is modelled
  as `List.insertionSort` by that same component order: both are
  stable sorts over the same order, so they produce the same list;
* file reads `f.read(n)` become `List.take n` / `List.drop n` (short
  reads at end of stream return fewer bytes, exactly like `take`), and
  `f.seek(k, 1)` becomes `List.drop k`;
* `struct.pack("<I", n)`, which raises for `n ≥ 2^32`, is embedded as
  the total function `le32enc`; theorems about images carry the
  (always true in practice) hypothesis that lengths fit in 32 bits;
* the inspector's UTF-8 decode of the name bytes is modelled at the
  byte level: the reported name is the trimmed byte string
  `f.read(name_aligned)[:name_len]`.
-/

/-- `MAGIC = b"RAMDISK\0"` (line 21 of the script). -/
def MAGIC : List Nat := [82, 65, 77, 68, 73, 83, 75, 0]

/-- `FILE_MAGIC = 0x46494C45` (line 22). -/
def FILE_MAGIC : Nat := 0x46494C45

/-- `BLOCK_SIZE = 512` (line 23). -/
def BLOCK_SIZE : Nat := 512

/-- `FILE_TYPE_FILE = 0` (line 26). -/
def FILE_TYPE_FILE : Nat := 0

/-- `FILE_TYPE_DIR = 1` (line 27). -/
def FILE_TYPE_DIR : Nat := 1

/-- `align_to(size, alignment) = (size + alignment - 1) // alignment * alignment`
(lines 30-32). -/
def align_to (size alignment : Nat) : Nat :=
  (size + alignment - 1) / alignment * alignment

/-- Kind of a directory-tree entry as the script classifies it:
`path.is_file()`, `path.is_dir()`, or anything else (symlinks, device
nodes, ...; handled by the `else` branch at lines 69-71). -/
inductive EntryKind where
  | file : EntryKind
  | dir : EntryKind
  | other : EntryKind
deriving DecidableEq

/-- One entry of the source tree, as visible to the script:
its path relative to the source directory (`path.relative_to(base)`)
as a nonempty component list, its kind, its raw content bytes
(meaningful for regular files) and its on-disk permission bits.
The script never reads `srcMode`; it is carried to state that packing
is independent of source permissions. -/
structure SrcItem where
  parts : List String
  kind : EntryKind
  data : List Nat
  srcMode : Nat
deriving DecidableEq

/-- `rel_path.name`: the final path component. -/
def SrcItem.name (it : SrcItem) : String := it.parts.getLastD ""

/-- Python's `str.replace('\\', '/')`: map every backslash code point
to a forward slash. -/
def pyReplaceBackslash (s : String) : String :=
  String.mk (s.data.map (fun c => if c = '\\' then '/' else c))

/-- `str(rel_path).replace('\\', '/')` (line 57): the path components
joined with `/`, then every backslash replaced by a slash.  This is a
Windows-compatibility step, but it also renames a POSIX file whose
name contains a literal backslash: a file `a\b` is serialized under
the name `a/b`. -/
def SrcItem.pathStr (it : SrcItem) : String :=
  pyReplaceBackslash (String.intercalate "/" it.parts)

/-- `pathlib`'s `PurePath.suffix`: the extension of the final component,
empty unless the last dot sits strictly inside the name
(`name[i:]` where `i = name.rfind('.')`, provided `0 < i < len(name) - 1`). -/
def pySuffix (s : String) : String :=
  let cs := s.data
  let k := (cs.reverse.takeWhile (fun c => c != '.')).length
  if k = cs.length then ""
  else
    let i := cs.length - 1 - k
    if 0 < i ∧ i < cs.length - 1 then String.mk (cs.drop i) else ""

/-- UTF-8 encoding of one Unicode scalar value, as byte values
(the standard 1-to-4-byte scheme Python's `str.encode('utf-8')` uses). -/
def utf8EncChar (c : Nat) : List Nat :=
  if c < 128 then [c]
  else if c < 2048 then [192 + c / 64, 128 + c % 64]
  else if c < 65536 then [224 + c / 4096, 128 + c / 64 % 64, 128 + c % 64]
  else [240 + c / 262144, 128 + c / 4096 % 64, 128 + c / 64 % 64, 128 + c % 64]

/-- `name_str.encode('utf-8')` as a list of byte values. -/
def utf8Bytes (s : String) : List Nat :=
  (s.data.map (fun c => utf8EncChar c.toNat)).flatten

/-- Python's `str.startswith`: code-point prefix test. -/
def pyStartsWith (s pre : String) : Bool := pre.data.isPrefixOf s.data

/-- Python's string `<`: lexicographic comparison of code points. -/
def strLtB : List Char → List Char → Bool
  | _, [] => false
  | [], _ :: _ => true
  | a :: as, b :: bs =>
    if a.toNat < b.toNat then true
    else if b.toNat < a.toNat then false
    else strLtB as bs

/-- `a ≤ b` on Python strings: not `b < a`. -/
def strLeB (a b : String) : Bool := !(strLtB b.data a.data)

/-- `struct.pack('<I', n)`: the four little-endian bytes of `n`
(the Python call raises for `n ≥ 2^32`; theorems carry that bound). -/
def le32enc (n : Nat) : List Nat :=
  [n % 256, n / 256 % 256, n / 65536 % 256, n / 16777216 % 256]

/-- `struct.unpack('<I', bs)`: decode four little-endian bytes. -/
def le32dec (bs : List Nat) : Nat :=
  bs.getD 0 0 + 256 * bs.getD 1 0 + 65536 * bs.getD 2 0 + 16777216 * bs.getD 3 0

/-- The little-endian 32-bit field of `bs` starting at byte offset `off`. -/
def u32at (bs : List Nat) (off : Nat) : Nat := le32dec ((bs.drop off).take 4)

/-- The serialized block of one entry (lines 73-90 of `pack_file`):
32-byte header `struct.pack('<5I3I', FILE_MAGIC, len(name), len(data),
file_type, mode, 0, 0, 0)`, then the name zero-padded to a 4-byte
multiple, then the data zero-padded to a 512-byte multiple. -/
def packEntry (nameBytes data : List Nat) (ftype mode : Nat) : List Nat :=
  let header := le32enc FILE_MAGIC ++ le32enc nameBytes.length ++
    le32enc data.length ++ le32enc ftype ++ le32enc mode ++
    le32enc 0 ++ le32enc 0 ++ le32enc 0
  let nameAligned :=
    nameBytes ++ List.replicate (align_to nameBytes.length 4 - nameBytes.length) 0
  let dataAligned :=
    data ++ List.replicate (align_to data.length BLOCK_SIZE - data.length) 0
  header ++ nameAligned ++ dataAligned

/-- The skip test of lines 53-55:
`rel_path.name.startswith('.') or rel_path.name in ['Cargo.lock', 'Cargo.toml']`. -/
def skipNameB (n : String) : Bool :=
  pyStartsWith n "." || n == "Cargo.lock" || n == "Cargo.toml"

/-- `pack_file` (lines 35-90).  Returns the serialized block, or `[]`
(Python `b""`) for entries the function drops: hidden basenames,
`Cargo.lock`/`Cargo.toml`, and entries that are neither regular files
nor directories.  The `relative_to` step has already happened in the
`SrcItem` representation.  Files get data `path.read_bytes()`, type 0,
mode `0o644`; directories get empty data, type 1, mode `0o755`. -/
def pack_file (it : SrcItem) : List Nat :=
  if skipNameB it.name then []
  else
    match it.kind with
    | .file => packEntry (utf8Bytes it.pathStr) it.data FILE_TYPE_FILE 0o644
    | .dir => packEntry (utf8Bytes it.pathStr) [] FILE_TYPE_DIR 0o755
    | .other => []

/-- Python's list/tuple `<` on path components: strict lexicographic
order over the component list, each component compared by code points
(equal heads — neither `<` in either direction — recurse). -/
def partsLtB : List String → List String → Bool
  | _, [] => false
  | [], _ :: _ => true
  | a :: as, b :: bs =>
    if strLtB a.data b.data then true
    else if strLtB b.data a.data then false
    else partsLtB as bs

/-- `a ≤ b` on component tuples: not `b < a`. -/
def partsLeB (a b : List String) : Bool := !(partsLtB b a)

/-- Sort order of `sorted(src_dir.rglob('*'))`: `PurePath.__lt__`
compares the tuple of path components, so paths under a common base
compare exactly as their relative component lists (e.g. `a` < `a/x` <
`a.b`, which differs from the joined-string order). -/
def itemLe (a b : SrcItem) : Prop := partsLeB a.parts b.parts = true

instance : DecidableRel itemLe :=
  fun a b => inferInstanceAs (Decidable (partsLeB a.parts b.parts = true))

/-- The per-file skip tests of lines 116-120:
keep regular files whose suffix is not a build artifact and whose name
is not `Cargo.lock` or `.gitignore`. -/
def keepFileB (it : SrcItem) : Bool :=
  decide (it.kind = EntryKind.file) &&
    !([".d", ".o", ".a", ".rlib"].contains (pySuffix it.name)) &&
    !(["Cargo.lock", ".gitignore"].contains it.name)

/-- `collect_files` (lines 93-123) for an existing source directory:
one pass over the sorted enumeration keeping directories, then a second
pass keeping non-artifact regular files.  (The missing-directory early
return at lines 103-104 is unreachable from `make_simple_fs`, which
checks existence first.) -/
def collect_files (tree : List SrcItem) : List SrcItem :=
  (List.insertionSort itemLe tree).filter (fun it => decide (it.kind = EntryKind.dir)) ++
    (List.insertionSort itemLe tree).filter keepFileB

/-- What `make_simple_fs` produces: the bytes written to the output
file, and the returned pair (entry count, total size). -/
structure PackResult where
  image : List Nat
  count : Nat
  size : Nat
deriving DecidableEq

/-- `make_simple_fs` (lines 126-185).  `srcExists` is `src_dir.exists()`.
Missing source: write the bare 16-byte header and return `(0, 16)`
(lines 138-144; note `b'\0' * (16 - len(header))` is empty).  Otherwise
collect, pack, drop the empty blocks (`if packed:`), prepend the header
with the surviving count, and pad the file to a `BLOCK_SIZE` multiple. -/
def make_simple_fs (srcExists : Bool) (tree : List SrcItem) : PackResult :=
  if !srcExists then
    let header := MAGIC ++ le32enc 0 ++ le32enc 0
    ⟨header, 0, header.length⟩
  else
    let files := collect_files tree
    let packedFiles := (files.map pack_file).filter (fun bs => !bs.isEmpty)
    let header := MAGIC ++ le32enc packedFiles.length ++ le32enc 0
    let body := header ++ packedFiles.flatten
    let image :=
      body ++ List.replicate (align_to body.length BLOCK_SIZE - body.length) 0
    ⟨image, packedFiles.length, image.length⟩

/-- The entries whose blocks actually reach the image, in stream order:
`collect_files` output with the `pack_file`-rejected items removed. -/
def keptEntries (tree : List SrcItem) : List SrcItem :=
  (collect_files tree).filter (fun it => !(pack_file it).isEmpty)

/-- One line of `inspect_simple_fs` output: the reported type string
(`"FILE"` or `"DIR "`), the name bytes (`f.read(name_aligned)[:name_len]`,
before the UTF-8 decode), the raw `data_len` and the `mode` field. -/
structure InspEntry where
  typeStr : String
  nameBytes : List Nat
  dataLen : Nat
  mode : Nat
deriving DecidableEq

/-- How an inspection run ends when it does not reach the entry count:
bad image magic (line 198), bad entry magic at an index (line 214), or
a `struct.error` from unpacking a short header read. -/
inductive InspErr where
  | badMagic : InspErr
  | badEntryMagic : Nat → InspErr
  | truncated : InspErr
deriving DecidableEq

/-- The entry loop of `inspect_simple_fs` (lines 210-227): for each of
the remaining `count` entries read a 32-byte header (a short read below
20 bytes makes `struct.unpack('<5I', header[:20])` raise), check the
entry magic (stop with the entry index on mismatch), then read the
aligned name block, trim it to `name_len`, and seek past the aligned
data block.  Returns the entries listed so far plus how the run ended. -/
def inspectLoop : Nat → Nat → List Nat → List InspEntry → List InspEntry × Option InspErr
  | 0, _, _, acc => (acc.reverse, none)
  | n + 1, i, bs, acc =>
    let header := bs.take 32
    if header.length < 20 then (acc.reverse, some InspErr.truncated)
    else
      let magic := u32at header 0
      let nameLen := u32at header 4
      let dataLen := u32at header 8
      let ftype := u32at header 12
      let mode := u32at header 16
      if magic ≠ FILE_MAGIC then (acc.reverse, some (InspErr.badEntryMagic i))
      else
        let nameAligned := align_to nameLen 4
        let dataAligned := align_to dataLen BLOCK_SIZE
        let rest := bs.drop 32
        let nameBytes := (rest.take nameAligned).take nameLen
        let typeStr := if ftype = FILE_TYPE_FILE then "FILE" else "DIR "
        inspectLoop n (i + 1) ((rest.drop nameAligned).drop dataAligned)
          (⟨typeStr, nameBytes, dataLen, mode⟩ :: acc)

/-- `inspect_simple_fs` (lines 188-227): check the 8-byte image magic,
unpack the entry count (a short read raises), skip the reserved word,
then run the entry loop. -/
def inspect_simple_fs (img : List Nat) : List InspEntry × Option InspErr :=
  if img.take 8 ≠ MAGIC then ([], some InspErr.badMagic)
  else if ((img.drop 8).take 4).length < 4 then ([], some InspErr.truncated)
  else
    let count := le32dec ((img.drop 8).take 4)
    inspectLoop count 0 (img.drop 16) []

/-- The inspection line a kept entry must produce: same kind, the UTF-8
bytes of the same relative path, the original data length, and the
fixed mode the packer assigns.  (The `.other` case is never kept; its
value here is irrelevant.) -/
def summ (it : SrcItem) : InspEntry :=
  match it.kind with
  | .file => ⟨"FILE", utf8Bytes it.pathStr, it.data.length, 0o644⟩
  | .dir => ⟨"DIR ", utf8Bytes it.pathStr, 0, 0o755⟩
  | .other => ⟨"FILE", utf8Bytes it.pathStr, 0, 0⟩

/-- Bounds under which `struct.pack('<I', ·)` does not raise for an
entry's fields: name byte length and data length fit in 32 bits. -/
def GoodItem (it : SrcItem) : Prop :=
  (utf8Bytes it.pathStr).length < 2 ^ 32 ∧ it.data.length < 2 ^ 32

instance (it : SrcItem) : Decidable (GoodItem it) := by
  unfold GoodItem; infer_instance

/-- Byte offset of entry `i`'s header inside the packed image:
the 16-byte image header plus the blocks of the earlier entries. -/
def entryOffset (tree : List SrcItem) (i : Nat) : Nat :=
  16 + ((((keptEntries tree).map pack_file).take i).map List.length).sum

/-- Demo tree, spec §8 example: the directory `bin`. -/
def binDir : SrcItem := ⟨["bin"], EntryKind.dir, [], 0o755⟩

/-- Demo tree, spec §8 example: `bin/hello.txt` containing `hello`
(the source mode is deliberately not `0o644`). -/
def helloFile : SrcItem :=
  ⟨["bin", "hello.txt"], EntryKind.file, [104, 101, 108, 108, 111], 0o600⟩

/-- Demo tree of the spec §8 example (listed in an arbitrary order;
the packer sorts). -/
def demoTree : List SrcItem := [helloFile, binDir]

/-- The same demo tree in the opposite enumeration order. -/
def demoTreeRev : List SrcItem := [binDir, helloFile]

/-- A hidden directory, filtered by `pack_file`'s basename test. -/
def hiddenDir : SrcItem := ⟨[".hidden"], EntryKind.dir, [], 0o755⟩

/-- A regular file inside the hidden directory; its basename `a.txt`
passes every filter even though its path starts with a dot. -/
def hiddenFile : SrcItem := ⟨[".hidden", "a.txt"], EntryKind.file, [104, 105], 0o644⟩

/-- Tree containing a hidden directory and a file inside it. -/
def hiddenTree : List SrcItem := [hiddenDir, hiddenFile]

/-- A hand-built single-entry image whose entry header carries an
arbitrary `entry_kind` field `k`: image header with count 1, then an
entry named `x` with no data, kind `k`, mode 0. -/
def kindProbeImage (k : Nat) : List Nat :=
  MAGIC ++ le32enc 1 ++ le32enc 0 ++ packEntry (utf8Bytes "x") [] k 0

/-- A POSIX regular file whose single-component name contains a
literal backslash; line 57's replace renames it inside the image. -/
def backslashFile : SrcItem := ⟨["a\\b"], EntryKind.file, [104, 105], 0o644⟩

/-- Tree containing only the backslash-named file. -/
def backslashTree : List SrcItem := [backslashFile]

/-- Directory `a`. -/
def dirA : SrcItem := ⟨["a"], EntryKind.dir, [], 0o755⟩

/-- Directory `a/x`. -/
def dirAX : SrcItem := ⟨["a", "x"], EntryKind.dir, [], 0o755⟩

/-- Directory `a.b`. -/
def dirADotB : SrcItem := ⟨["a.b"], EntryKind.dir, [], 0o755⟩

/-- Three directories whose component-tuple order (`a`, `a/x`, `a.b`)
differs from their path-string order (`a`, `a.b`, `a/x`). -/
def slashDotTree : List SrcItem := [dirADotB, dirA, dirAX]

/-- Stream-order relation the packed entries actually satisfy: a
directory strictly precedes a file, and entries of equal kind are
ordered by `pathlib`'s path order — lexicographic over the component
tuple. -/
def entOrd (a b : SrcItem) : Prop :=
  (a.kind = EntryKind.dir ∧ b.kind = EntryKind.file) ∨
    (a.kind = b.kind ∧ partsLeB a.parts b.parts = true)

/-- The ordering the claim states, taken at its word ("each group
lexicographically sorted by full path"): entries of equal kind ordered
by code-point comparison of the full path string.  Stated only to be
compared against the program's actual order: `/` (47) sorts after `.`
(46) as a string character, while `pathlib` splits at `/` first, so
the two orders disagree on trees such as `a`, `a/x`, `a.b`. -/
def entOrdByPathString (a b : SrcItem) : Prop :=
  (a.kind = EntryKind.dir ∧ b.kind = EntryKind.file) ∨
    (a.kind = b.kind ∧ strLeB a.pathStr b.pathStr = true)

/-! ### Basic facts about the codec pieces -/

theorem length_le32enc (n : Nat) : (le32enc n).length = 4 := rfl

theorem le32dec_le32enc {n : Nat} (h : n < 2 ^ 32) : le32dec (le32enc n) = n := by
  simp [le32dec, le32enc]
  omega

theorem le_align_to_four (n : Nat) : n ≤ align_to n 4 := by
  unfold align_to; omega

theorem le_align_to_block (n : Nat) : n ≤ align_to n BLOCK_SIZE := by
  unfold align_to BLOCK_SIZE; omega

theorem nameAligned_length (nb : List Nat) :
    (nb ++ List.replicate (align_to nb.length 4 - nb.length) 0).length =
      align_to nb.length 4 := by
  have := le_align_to_four nb.length
  simp [List.length_append, List.length_replicate]
  omega

theorem dataAligned_length (d : List Nat) :
    (d ++ List.replicate (align_to d.length BLOCK_SIZE - d.length) 0).length =
      align_to d.length BLOCK_SIZE := by
  have := le_align_to_block d.length
  simp [List.length_append, List.length_replicate]
  omega

/-- The five meaningful fields of a serialized entry header, as the
inspector's `struct.unpack('<5I', header[:20])` sees them. -/
theorem hdr_field0 (v1 v2 v3 v4 v5 : Nat) (h : v1 < 2 ^ 32) :
    u32at (le32enc v1 ++ le32enc v2 ++ le32enc v3 ++ le32enc v4 ++ le32enc v5 ++
      le32enc 0 ++ le32enc 0 ++ le32enc 0) 0 = v1 := by
  simp [u32at, le32enc, le32dec]; omega

theorem hdr_field4 (v1 v2 v3 v4 v5 : Nat) (h : v2 < 2 ^ 32) :
    u32at (le32enc v1 ++ le32enc v2 ++ le32enc v3 ++ le32enc v4 ++ le32enc v5 ++
      le32enc 0 ++ le32enc 0 ++ le32enc 0) 4 = v2 := by
  simp [u32at, le32enc, le32dec]; omega

theorem hdr_field8 (v1 v2 v3 v4 v5 : Nat) (h : v3 < 2 ^ 32) :
    u32at (le32enc v1 ++ le32enc v2 ++ le32enc v3 ++ le32enc v4 ++ le32enc v5 ++
      le32enc 0 ++ le32enc 0 ++ le32enc 0) 8 = v3 := by
  simp [u32at, le32enc, le32dec]; omega

theorem hdr_field12 (v1 v2 v3 v4 v5 : Nat) (h : v4 < 2 ^ 32) :
    u32at (le32enc v1 ++ le32enc v2 ++ le32enc v3 ++ le32enc v4 ++ le32enc v5 ++
      le32enc 0 ++ le32enc 0 ++ le32enc 0) 12 = v4 := by
  simp [u32at, le32enc, le32dec]; omega

theorem hdr_field16 (v1 v2 v3 v4 v5 : Nat) (h : v5 < 2 ^ 32) :
    u32at (le32enc v1 ++ le32enc v2 ++ le32enc v3 ++ le32enc v4 ++ le32enc v5 ++
      le32enc 0 ++ le32enc 0 ++ le32enc 0) 16 = v5 := by
  simp [u32at, le32enc, le32dec]; omega

theorem header_length (v1 v2 v3 v4 v5 : Nat) :
    (le32enc v1 ++ le32enc v2 ++ le32enc v3 ++ le32enc v4 ++ le32enc v5 ++
      le32enc 0 ++ le32enc 0 ++ le32enc 0).length = 32 := by
  simp [le32enc]

/-- One pass of the inspection loop over one well-formed serialized
entry consumes exactly its block and records exactly its fields. -/
theorem inspectLoop_step (nb d : List Nat) (ft mo : Nat)
    (hnb : nb.length < 2 ^ 32) (hd : d.length < 2 ^ 32)
    (hft : ft < 2 ^ 32) (hmo : mo < 2 ^ 32)
    (n i : Nat) (extra : List Nat) (acc : List InspEntry) :
    inspectLoop (n + 1) i (packEntry nb d ft mo ++ extra) acc =
      inspectLoop n (i + 1) extra
        (⟨if ft = FILE_TYPE_FILE then "FILE" else "DIR ", nb, d.length, mo⟩ :: acc) := by
  have hFM : (FILE_MAGIC : Nat) < 2 ^ 32 := by norm_num [FILE_MAGIC]
  have hna := nameAligned_length nb
  have hda := dataAligned_length d
  have hassoc : packEntry nb d ft mo ++ extra =
      (le32enc FILE_MAGIC ++ le32enc nb.length ++ le32enc d.length ++ le32enc ft ++
        le32enc mo ++ le32enc 0 ++ le32enc 0 ++ le32enc 0) ++
      ((nb ++ List.replicate (align_to nb.length 4 - nb.length) 0) ++
        ((d ++ List.replicate (align_to d.length BLOCK_SIZE - d.length) 0) ++ extra)) := by
    simp [packEntry, List.append_assoc]
  rw [hassoc]
  simp only [inspectLoop]
  rw [List.take_left' (header_length FILE_MAGIC nb.length d.length ft mo),
    List.drop_left' (header_length FILE_MAGIC nb.length d.length ft mo)]
  rw [header_length, hdr_field0 _ _ _ _ _ hFM, hdr_field4 _ _ _ _ _ hnb,
    hdr_field8 _ _ _ _ _ hd, hdr_field12 _ _ _ _ _ hft, hdr_field16 _ _ _ _ _ hmo]
  rw [List.take_left' hna, List.drop_left' hna, List.drop_left' hda]
  rw [List.take_left' (rfl : nb.length = nb.length)]
  norm_num

/-- Running the inspection loop over the concatenated blocks of `ks`
well-formed kept entries consumes exactly those blocks and lists their
summaries, then continues on whatever follows. -/
theorem inspectLoop_consume :
    ∀ ks : List SrcItem,
      (∀ it ∈ ks, (pack_file it).isEmpty = false ∧ GoodItem it) →
      ∀ (n i : Nat) (extra : List Nat) (acc : List InspEntry),
        inspectLoop (ks.length + n) i ((ks.map pack_file).flatten ++ extra) acc =
          inspectLoop n (i + ks.length) extra ((ks.map summ).reverse ++ acc) := by
  intro ks
  induction ks with
  | nil => intro _ n i extra acc; simp
  | cons k ks ih =>
    intro hks n i extra acc
    obtain ⟨hke, hgood⟩ := hks k (List.mem_cons_self k ks)
    have hks' : ∀ it ∈ ks, (pack_file it).isEmpty = false ∧ GoodItem it :=
      fun it hit => hks it (List.mem_cons_of_mem _ hit)
    have hskip : skipNameB k.name = false := by
      by_contra hcon
      rw [Bool.not_eq_false] at hcon
      simp [pack_file, hcon] at hke
    have hlen1 : (k :: ks).length + n = (ks.length + n) + 1 := by simp; omega
    have hidx : i + 1 + ks.length = i + (ks.length + 1) := by omega
    rw [hlen1, List.map_cons, List.flatten_cons, List.append_assoc]
    cases hkind : k.kind with
    | other => simp [pack_file, hskip, hkind] at hke
    | file =>
      have hpf : pack_file k =
          packEntry (utf8Bytes k.pathStr) k.data FILE_TYPE_FILE 0o644 := by
        simp [pack_file, hskip, hkind]
      rw [hpf,
        inspectLoop_step _ _ _ _ hgood.1 hgood.2 (by norm_num [FILE_TYPE_FILE])
          (by norm_num),
        ih hks' n (i + 1) extra _, hidx]
      simp [summ, hkind, List.append_assoc]
    | dir =>
      have hpf : pack_file k =
          packEntry (utf8Bytes k.pathStr) [] FILE_TYPE_DIR 0o755 := by
        simp [pack_file, hskip, hkind]
      rw [hpf,
        inspectLoop_step _ _ _ _ hgood.1 (by norm_num) (by norm_num [FILE_TYPE_DIR])
          (by norm_num),
        ih hks' n (i + 1) extra _, hidx]
      simp [summ, hkind, FILE_TYPE_DIR, FILE_TYPE_FILE, List.append_assoc]

/-- The blocks that reach the image are exactly the blocks of the kept
entries, in order: `if packed:` keeps the nonempty `pack_file` results. -/
theorem packedFiles_eq (tree : List SrcItem) :
    ((collect_files tree).map pack_file).filter (fun bs => !bs.isEmpty) =
      (keptEntries tree).map pack_file := by
  rw [keptEntries, List.filter_map]
  rfl

/-- Image header plus the concatenated entry blocks, before the final
zero padding. -/
def imageBody (tree : List SrcItem) : List Nat :=
  MAGIC ++ le32enc (keptEntries tree).length ++ le32enc 0 ++
    ((keptEntries tree).map pack_file).flatten

/-- Structure of every image the packer writes for an existing source:
the body followed by zero padding up to the 512-byte boundary. -/
theorem image_decomp (tree : List SrcItem) :
    (make_simple_fs true tree).image =
      imageBody tree ++
        List.replicate
          (align_to (imageBody tree).length BLOCK_SIZE - (imageBody tree).length) 0 := by
  have hbody :
      (MAGIC ++
          le32enc (((collect_files tree).map pack_file).filter
            (fun bs => !bs.isEmpty)).length ++ le32enc 0) ++
        (((collect_files tree).map pack_file).filter (fun bs => !bs.isEmpty)).flatten =
      imageBody tree := by
    rw [packedFiles_eq, List.length_map, imageBody]
  simp only [make_simple_fs, Bool.not_true, Bool.false_eq_true, if_false]
  rw [hbody]

/-- Length of the 16-byte image header. -/
theorem header16_length (c : Nat) :
    (MAGIC ++ le32enc c ++ le32enc 0).length = 16 := by
  simp [MAGIC, le32enc]

/-- Inspecting a packed image lists exactly the kept entries'
summaries, with no error: the underlying round-trip computation. -/
theorem inspect_make_eq (tree : List SrcItem)
    (hg : ∀ it ∈ keptEntries tree, GoodItem it)
    (hc : (keptEntries tree).length < 2 ^ 32) :
    inspect_simple_fs (make_simple_fs true tree).image =
      ((keptEntries tree).map summ, none) := by
  have him := image_decomp tree
  have him2 : (make_simple_fs true tree).image =
      (MAGIC ++ le32enc (keptEntries tree).length ++ le32enc 0) ++
        (((keptEntries tree).map pack_file).flatten ++
          List.replicate
            (align_to (imageBody tree).length BLOCK_SIZE - (imageBody tree).length) 0) := by
    rw [him, imageBody]
    simp [List.append_assoc]
  have him3 : (make_simple_fs true tree).image =
      MAGIC ++
        (le32enc (keptEntries tree).length ++
          (le32enc 0 ++
            (((keptEntries tree).map pack_file).flatten ++
              List.replicate
                (align_to (imageBody tree).length BLOCK_SIZE - (imageBody tree).length) 0))) := by
    rw [him2]; simp [List.append_assoc]
  have htake8 : (make_simple_fs true tree).image.take 8 = MAGIC := by
    rw [him3]; exact List.take_left' rfl
  have hdrop8 : (make_simple_fs true tree).image.drop 8 =
      le32enc (keptEntries tree).length ++
        (le32enc 0 ++
          (((keptEntries tree).map pack_file).flatten ++
            List.replicate
              (align_to (imageBody tree).length BLOCK_SIZE - (imageBody tree).length) 0)) := by
    rw [him3]; exact List.drop_left' rfl
  have hcnt : ((make_simple_fs true tree).image.drop 8).take 4 =
      le32enc (keptEntries tree).length := by
    rw [hdrop8]; exact List.take_left' (length_le32enc _)
  have hdrop16 : (make_simple_fs true tree).image.drop 16 =
      ((keptEntries tree).map pack_file).flatten ++
        List.replicate
          (align_to (imageBody tree).length BLOCK_SIZE - (imageBody tree).length) 0 := by
    rw [him2]; exact List.drop_left' (header16_length _)
  have hks : ∀ it ∈ keptEntries tree, (pack_file it).isEmpty = false ∧ GoodItem it := by
    intro it hit
    refine ⟨?_, hg it hit⟩
    have := (List.mem_filter.mp hit).2
    simpa using this
  have hloop := inspectLoop_consume (keptEntries tree) hks 0 0
    (List.replicate
      (align_to (imageBody tree).length BLOCK_SIZE - (imageBody tree).length) 0) []
  simp only [Nat.add_zero, Nat.zero_add] at hloop
  unfold inspect_simple_fs
  rw [htake8, hcnt, hdrop16, length_le32enc, le32dec_le32enc hc, hloop]
  simp [inspectLoop]

/-- C1, amended.  Round-trip: packing a source tree and then
inspecting the resulting image succeeds and yields, for each
non-filtered entry of the tree in stream order, exactly the original
entry's kind (`"FILE"`/`"DIR "`) and data length (file content length;
0 for directories), and as entry name the UTF-8 bytes of the entry's
relative POSIX path with every backslash replaced by `/` (line 57's
normalization, folded into `SrcItem.pathStr`).  For entries whose path
contains no backslash — every path a build tree normally holds — the
name round-trips unchanged.  Bounds: every kept entry's name and data
lengths and the entry count fit in 32 bits, as `struct.pack` demands. -/
theorem C1_roundtrip (tree : List SrcItem)
    (hg : ∀ it ∈ keptEntries tree, GoodItem it)
    (hc : (keptEntries tree).length < 2 ^ 32) :
    inspect_simple_fs (make_simple_fs true tree).image =
      ((keptEntries tree).map summ, none) :=
  inspect_make_eq tree hg hc

/-- Witness for `C1_roundtrip`: the spec's own `bin` + `bin/hello.txt`
example satisfies the hypotheses, and the round-trip holds there. -/
theorem C1_roundtrip_witness :
    ((∀ it ∈ keptEntries demoTree, GoodItem it) ∧
      (keptEntries demoTree).length < 2 ^ 32) ∧
    inspect_simple_fs (make_simple_fs true demoTree).image =
      ((keptEntries demoTree).map summ, none) :=
  ⟨⟨by decide, by decide⟩, C1_roundtrip demoTree (by decide) (by decide)⟩

/-- C1, counterexample.  The claim as stated — the inspected entry
name equals the original entry's relative POSIX path — fails on the
code: packing the single POSIX file `a\b` (one component containing a
literal backslash) yields an image whose only entry is named `a/b`,
because line 57 replaces every backslash before serializing; `a/b` and
`a\b` differ as byte strings. -/
theorem C1_counterexample :
    (inspect_simple_fs (make_simple_fs true backslashTree).image).1.map
        InspEntry.nameBytes = [utf8Bytes "a/b"] ∧
    utf8Bytes "a/b" ≠ utf8Bytes "a\\b" := by
  refine ⟨?_, by decide⟩
  rw [inspect_make_eq backslashTree (by decide) (by decide)]
  decide

/-- The entry count the packer returns is the number of kept entries. -/
theorem make_count (tree : List SrcItem) :
    (make_simple_fs true tree).count = (keptEntries tree).length := by
  simp only [make_simple_fs, Bool.not_true, Bool.false_eq_true, if_false]
  rw [packedFiles_eq, List.length_map]

/-- The size the packer returns is the image length. -/
theorem make_size_eq_length (tree : List SrcItem) :
    (make_simple_fs true tree).size = (make_simple_fs true tree).image.length := by
  simp only [make_simple_fs, Bool.not_true, Bool.false_eq_true, if_false]

/-- The size the packer returns for an existing source is the body
length rounded up to the next 512-byte boundary. -/
theorem make_size (tree : List SrcItem) :
    (make_simple_fs true tree).size = align_to (imageBody tree).length BLOCK_SIZE := by
  rw [make_size_eq_length, image_decomp tree]
  have := le_align_to_block (imageBody tree).length
  simp [List.length_append, List.length_replicate]
  omega

/-- C3.  The claim says a missing source directory yields
`entry_count = 0` and `image_size = 512` with the total size padded to
512 bytes.  The code (lines 138-144) indeed returns `entry_count = 0`
but writes only the bare 16-byte header, skipping the padding step the
normal path performs, and returns `image_size = 16`:
the padding-to-512 part of the claim fails on the code. -/
theorem C3_missing_source (tree : List SrcItem) :
    (make_simple_fs false tree).count = 0 ∧
    (make_simple_fs false tree).image = MAGIC ++ le32enc 0 ++ le32enc 0 ∧
    (make_simple_fs false tree).size = 16 ∧
    (make_simple_fs false tree).size ≠ 512 := by
  refine ⟨rfl, rfl, rfl, ?_⟩
  simp [make_simple_fs, MAGIC, le32enc]

/-- C2.  The claim says every produced image, including the
missing-source case, has a total length that is a multiple of 512.
The missing-source image is 16 bytes long, so its length is not a
multiple of 512: the invariant the claim states fails on the code's
missing-source branch (and only there — see `make_size` for the
existing-source padding). -/
theorem C2_missing_source_alignment (tree : List SrcItem) :
    (make_simple_fs false tree).image.length = 16 ∧
    ¬ (512 ∣ (make_simple_fs false tree).image.length) := by
  refine ⟨rfl, ?_⟩
  intro hdvd
  have : (make_simple_fs false tree).image.length = 16 := rfl
  rw [this] at hdvd
  omega

/-- The mode field of a serialized entry block sits at byte offset 16. -/
theorem packEntry_mode (nb d : List Nat) (ft mo : Nat) (hmo : mo < 2 ^ 32) :
    u32at (packEntry nb d ft mo) 16 = mo := by
  simp [packEntry, u32at, le32enc, le32dec]
  omega

/-- C9.  Every entry block the packer emits carries mode `0o644` (420)
when the entry is a regular file and mode `0o755` (493) when it is a
directory — the source entry's own permission bits (`srcMode`) are
never consulted, and no other mode value is ever written. -/
theorem C9_mode_field (it : SrcItem) (h : pack_file it ≠ []) :
    u32at (pack_file it) 16 =
      if it.kind = EntryKind.file then 0o644 else 0o755 := by
  by_cases hskip : skipNameB it.name = true
  · exact absurd (by simp [pack_file, hskip]) h
  · replace hskip : skipNameB it.name = false := by simpa using hskip
    cases hkind : it.kind with
    | other => exact absurd (by simp [pack_file, hskip, hkind]) h
    | file =>
      have hpf : pack_file it =
          packEntry (utf8Bytes it.pathStr) it.data FILE_TYPE_FILE 0o644 := by
        simp [pack_file, hskip, hkind]
      rw [hpf, packEntry_mode _ _ _ _ (by norm_num)]
      simp [hkind]
    | dir =>
      have hpf : pack_file it =
          packEntry (utf8Bytes it.pathStr) [] FILE_TYPE_DIR 0o755 := by
        simp [pack_file, hskip, hkind]
      rw [hpf, packEntry_mode _ _ _ _ (by norm_num)]
      simp [hkind]

/-- Witness for `C9_mode_field`: the `bin` directory block is nonempty
and carries mode `0o755`. -/
theorem C9_mode_field_witness :
    pack_file binDir ≠ [] ∧
    u32at (pack_file binDir) 16 =
      if binDir.kind = EntryKind.file then 0o644 else 0o755 :=
  ⟨by decide, C9_mode_field binDir (by decide)⟩

/-- C10.  The inspector reports an entry as `"FILE"` exactly when its
`entry_kind` field is 0; any nonzero value — not only the defined
directory value 1 — is reported as `"DIR "`, and an undefined kind is
never treated as an error. -/
theorem C10_kind_report (k : Nat) (hk : k < 2 ^ 32) :
    inspect_simple_fs (kindProbeImage k) =
      ([⟨if k = FILE_TYPE_FILE then "FILE" else "DIR ", utf8Bytes "x", 0, 0⟩],
        none) := by
  have hassoc : kindProbeImage k =
      MAGIC ++
        (le32enc 1 ++ (le32enc 0 ++ (packEntry (utf8Bytes "x") [] k 0 ++ []))) := by
    simp [kindProbeImage, List.append_assoc]
  have htake8 : (kindProbeImage k).take 8 = MAGIC := by
    rw [hassoc]; exact List.take_left' rfl
  have hdrop8 : (kindProbeImage k).drop 8 =
      le32enc 1 ++ (le32enc 0 ++ (packEntry (utf8Bytes "x") [] k 0 ++ [])) := by
    rw [hassoc]; exact List.drop_left' rfl
  have hcnt : ((kindProbeImage k).drop 8).take 4 = le32enc 1 := by
    rw [hdrop8]; exact List.take_left' (length_le32enc _)
  have hdrop16 : (kindProbeImage k).drop 16 =
      packEntry (utf8Bytes "x") [] k 0 ++ [] := by
    have : kindProbeImage k =
        (MAGIC ++ le32enc 1 ++ le32enc 0) ++
          (packEntry (utf8Bytes "x") [] k 0 ++ []) := by
      simp [kindProbeImage, List.append_assoc]
    rw [this]; exact List.drop_left' (header16_length 1)
  unfold inspect_simple_fs
  rw [htake8, hcnt, hdrop16, length_le32enc, le32dec_le32enc (by norm_num)]
  rw [inspectLoop_step _ _ _ _ (by decide) (by decide) hk (by norm_num)]
  simp [inspectLoop]

/-- Witness for `C10_kind_report`: the undefined kind value 7 is in
range and is reported as a directory, without error. -/
theorem C10_kind_report_witness :
    7 < 2 ^ 32 ∧
    inspect_simple_fs (kindProbeImage 7) =
      ([⟨if 7 = FILE_TYPE_FILE then "FILE" else "DIR ", utf8Bytes "x", 0, 0⟩],
        none) :=
  ⟨by norm_num, C10_kind_report 7 (by norm_num)⟩

set_option maxRecDepth 8000 in
/-- C4, counterexample.  In the spec's own example the file entry's
name is `bin/hello.txt` (13 UTF-8 bytes, aligned to 16), so its block
is 32 + 16 + 512 = 560 bytes, not the 32 + 8 + 512 = 552 bytes the
claim states. -/
theorem C4_counterexample :
    ¬ ((pack_file helloFile).length = 32 + 8 + 512) := by decide

set_option maxRecDepth 8000 in
/-- C4, amended.  Packing a source tree containing exactly `bin/`
(directory) and `bin/hello.txt` (5 bytes `hello`) yields an image laid
out as header(16) + dir-entry(32+4) + file-entry(32+16+512) bytes —
the name block of `bin/hello.txt` is 16 bytes, not 8 — rounded up to a
512-byte multiple (1024) for the total size, with `entry_count = 2`. -/
theorem C4_example_layout :
    keptEntries demoTree = [binDir, helloFile] ∧
    (pack_file binDir).length = 32 + 4 ∧
    (pack_file helloFile).length = 32 + 16 + 512 ∧
    (make_simple_fs true demoTree).count = 2 ∧
    (make_simple_fs true demoTree).size =
      align_to (16 + (32 + 4) + (32 + 16 + 512)) BLOCK_SIZE ∧
    (make_simple_fs true demoTree).size = 1024 := by
  have hk : keptEntries demoTree = [binDir, helloFile] := by decide
  have hb : (pack_file binDir).length = 36 := by decide
  have hh : (pack_file helloFile).length = 560 := by decide
  have hbody : (imageBody demoTree).length = 612 := by
    rw [imageBody, hk]
    simp [MAGIC, le32enc, List.length_append, hb, hh]
  have hsize : (make_simple_fs true demoTree).size = 1024 := by
    rw [make_size, hbody]
    norm_num [align_to, BLOCK_SIZE]
  refine ⟨hk, hb, hh, ?_, ?_, hsize⟩
  · rw [make_count, hk]; rfl
  · rw [hsize]; norm_num [align_to, BLOCK_SIZE]

set_option maxRecDepth 8000 in
/-- C5, counterexample.  The hidden-name filter checks only the final
path component: packing a tree holding the hidden directory `.hidden`
and the file `.hidden/a.txt` drops the directory but keeps the file,
so the packed output contains exactly one entry, whose name
`.hidden/a.txt` begins with a dot (byte 46) — a hidden path at depth 1
appears in the output, contradicting the claim. -/
theorem C5_counterexample :
    (inspect_simple_fs (make_simple_fs true hiddenTree).image).1.map
        InspEntry.nameBytes = [utf8Bytes ".hidden/a.txt"] ∧
    (utf8Bytes ".hidden/a.txt").getD 0 0 = 46 := by
  refine ⟨?_, by decide⟩
  rw [inspect_make_eq hiddenTree (by decide) (by decide)]
  decide

/-- C5, amended.  The filters act on an entry's own basename and (for
files) extension only: no kept entry has a basename starting with a
dot or equal to `Cargo.lock`/`Cargo.toml`, and no kept file has a
build-artifact suffix (`.d`/`.o`/`.a`/`.rlib`) or basename
`Cargo.lock`/`.gitignore`; all of this silently, never as an error.
Entries nested under a hidden directory are not filtered — only the
final path component is tested. -/
theorem C5_basename_filter (tree : List SrcItem) (it : SrcItem)
    (h : it ∈ keptEntries tree) :
    pyStartsWith it.name "." = false ∧
    it.name ≠ "Cargo.lock" ∧ it.name ≠ "Cargo.toml" ∧
    it.kind ≠ EntryKind.other ∧
    (it.kind = EntryKind.file →
      pySuffix it.name ∉ ([".d", ".o", ".a", ".rlib"] : List String) ∧
      it.name ≠ ".gitignore") := by
  rw [keptEntries, List.mem_filter] at h
  obtain ⟨hmem, hne⟩ := h
  have hskip : skipNameB it.name = false := by
    by_contra hcon
    rw [Bool.not_eq_false] at hcon
    simp [pack_file, hcon] at hne
  have hsk := hskip
  simp only [skipNameB, Bool.or_eq_false_iff, beq_eq_false_iff_ne] at hsk
  rw [collect_files, List.mem_append] at hmem
  have hkind : it.kind ≠ EntryKind.other := by
    rcases hmem with hd | hf
    · have := (List.mem_filter.mp hd).2
      simp only [decide_eq_true_eq] at this
      rw [this]; intro hcon; cases hcon
    · have := (List.mem_filter.mp hf).2
      simp only [keepFileB, Bool.and_eq_true, decide_eq_true_eq] at this
      rw [this.1.1]; intro hcon; cases hcon
  refine ⟨hsk.1.1, hsk.1.2, hsk.2, hkind, ?_⟩
  intro hfile
  rcases hmem with hd | hf
  · have := (List.mem_filter.mp hd).2
    simp only [decide_eq_true_eq] at this
    rw [hfile] at this; cases this
  · have := (List.mem_filter.mp hf).2
    simp only [keepFileB, Bool.and_eq_true, decide_eq_true_eq,
      Bool.not_eq_true'] at this
    refine ⟨by simpa using this.1.2, fun hcon => ?_⟩
    have h2 : it.name ∉ ["Cargo.lock", ".gitignore"] := by simpa using this.2
    exact h2 (by rw [hcon]; simp)

/-- Witness for `C5_basename_filter`: the kept file `.hidden/a.txt` of
the hidden-directory tree satisfies the basename-level filter facts. -/
theorem C5_basename_filter_witness :
    hiddenFile ∈ keptEntries hiddenTree ∧
    (pyStartsWith hiddenFile.name "." = false ∧
      hiddenFile.name ≠ "Cargo.lock" ∧ hiddenFile.name ≠ "Cargo.toml" ∧
      hiddenFile.kind ≠ EntryKind.other ∧
      (hiddenFile.kind = EntryKind.file →
        pySuffix hiddenFile.name ∉ ([".d", ".o", ".a", ".rlib"] : List String) ∧
        hiddenFile.name ≠ ".gitignore")) :=
  ⟨by decide, C5_basename_filter hiddenTree hiddenFile (by decide)⟩

/-- Code-point comparison is irreflexive. -/
theorem strLtB_irrefl : ∀ x : List Char, strLtB x x = false := by
  intro x
  induction x with
  | nil => rfl
  | cons a as ih => simp [strLtB, Nat.lt_irrefl, ih]

/-- Code-point comparison is transitive. -/
theorem strLtB_trans :
    ∀ x y z : List Char,
      strLtB x y = true → strLtB y z = true → strLtB x z = true := by
  intro x
  induction x with
  | nil =>
    intro y z hxy hyz
    cases z with
    | nil =>
      cases y with
      | nil => simp [strLtB] at hxy
      | cons b bs => simp [strLtB] at hyz
    | cons c cs => rfl
  | cons a as ih =>
    intro y z hxy hyz
    cases y with
    | nil => simp [strLtB] at hxy
    | cons b bs =>
      cases z with
      | nil => simp [strLtB] at hyz
      | cons c cs =>
        by_cases h1 : a.toNat < b.toNat
        · by_cases h2 : b.toNat < c.toNat
          · simp [strLtB, show a.toNat < c.toNat by omega]
          · by_cases h3 : c.toNat < b.toNat
            · simp [strLtB, h2, h3] at hyz
            · have : b.toNat = c.toNat := by omega
              simp [strLtB, show a.toNat < c.toNat by omega]
        · by_cases h4 : b.toNat < a.toNat
          · simp [strLtB, h1, h4] at hxy
          · have hab : a.toNat = b.toNat := by omega
            by_cases h2 : b.toNat < c.toNat
            · simp [strLtB, show a.toNat < c.toNat by omega]
            · by_cases h3 : c.toNat < b.toNat
              · simp [strLtB, h2, h3] at hyz
              · have hbc : b.toNat = c.toNat := by omega
                simp [strLtB, h1, h4] at hxy
                simp [strLtB, h2, h3] at hyz
                simp [strLtB, show ¬ a.toNat < c.toNat by omega,
                  show ¬ c.toNat < a.toNat by omega]
                exact ih bs cs hxy hyz

/-- Code-point comparison is trichotomous: mutually incomparable
lists are equal. -/
theorem strLtB_tricho :
    ∀ x y : List Char, strLtB x y = false → strLtB y x = false → x = y := by
  intro x
  induction x with
  | nil =>
    intro y hxy _
    cases y with
    | nil => rfl
    | cons b bs => simp [strLtB] at hxy
  | cons a as ih =>
    intro y hxy hyx
    cases y with
    | nil => simp [strLtB] at hyx
    | cons b bs =>
      by_cases h1 : a.toNat < b.toNat
      · simp [strLtB, h1] at hxy
      · by_cases h2 : b.toNat < a.toNat
        · simp [strLtB, h2] at hyx
        · have hab : a = b := by
            have h : a.toNat = b.toNat :=
              Nat.le_antisymm (Nat.not_lt.mp h2) (Nat.not_lt.mp h1)
            exact Char.ext (UInt32.ext h)
          simp [strLtB, h1, h2] at hxy hyx
          rw [hab, ih bs hxy hyx]

/-- Component-tuple comparison is irreflexive. -/
theorem partsLtB_irrefl : ∀ x : List String, partsLtB x x = false := by
  intro x
  induction x with
  | nil => rfl
  | cons a as ih => simp [partsLtB, strLtB_irrefl, ih]

/-- Component-tuple comparison is transitive. -/
theorem partsLtB_trans :
    ∀ x y z : List String,
      partsLtB x y = true → partsLtB y z = true → partsLtB x z = true := by
  intro x
  induction x with
  | nil =>
    intro y z hxy hyz
    cases z with
    | nil =>
      cases y with
      | nil => simp [partsLtB] at hxy
      | cons b bs => simp [partsLtB] at hyz
    | cons c cs => rfl
  | cons a as ih =>
    intro y z hxy hyz
    cases y with
    | nil => simp [partsLtB] at hxy
    | cons b bs =>
      cases z with
      | nil => simp [partsLtB] at hyz
      | cons c cs =>
        by_cases h1 : strLtB a.data b.data = true
        · by_cases h2 : strLtB b.data c.data = true
          · simp [partsLtB, strLtB_trans _ _ _ h1 h2]
          · by_cases h3 : strLtB c.data b.data = true
            · simp [partsLtB, h2, h3] at hyz
            · have hbc : b.data = c.data :=
                strLtB_tricho _ _ (by simpa using h2) (by simpa using h3)
              have hac : strLtB a.data c.data = true := by rw [← hbc]; exact h1
              simp [partsLtB, hac]
        · by_cases h4 : strLtB b.data a.data = true
          · simp [partsLtB, h1, h4] at hxy
          · have hab : a.data = b.data :=
              strLtB_tricho _ _ (by simpa using h1) (by simpa using h4)
            by_cases h2 : strLtB b.data c.data = true
            · have hac : strLtB a.data c.data = true := by rw [hab]; exact h2
              simp [partsLtB, hac]
            · by_cases h3 : strLtB c.data b.data = true
              · simp [partsLtB, h2, h3] at hyz
              · have hbc : b.data = c.data :=
                  strLtB_tricho _ _ (by simpa using h2) (by simpa using h3)
                have hac1 : strLtB a.data c.data = false := by
                  rw [hab, hbc]; exact strLtB_irrefl _
                have hca : strLtB c.data a.data = false := by
                  rw [← hbc, ← hab]; exact strLtB_irrefl _
                simp [partsLtB, h1, h4] at hxy
                simp [partsLtB, h2, h3] at hyz
                simp [partsLtB, hac1, hca]
                exact ih bs cs hxy hyz

/-- Component-tuple comparison is trichotomous: mutually incomparable
component lists are equal. -/
theorem partsLtB_tricho :
    ∀ x y : List String,
      partsLtB x y = false → partsLtB y x = false → x = y := by
  intro x
  induction x with
  | nil =>
    intro y hxy _
    cases y with
    | nil => rfl
    | cons b bs => simp [partsLtB] at hxy
  | cons a as ih =>
    intro y hxy hyx
    cases y with
    | nil => simp [partsLtB] at hyx
    | cons b bs =>
      by_cases h1 : strLtB a.data b.data = true
      · simp [partsLtB, h1] at hxy
      · by_cases h2 : strLtB b.data a.data = true
        · simp [partsLtB, h2] at hyx
        · have hdata : a.data = b.data :=
            strLtB_tricho _ _ (by simpa using h1) (by simpa using h2)
          have hab : a = b := by
            have h : a = String.mk a.data := rfl
            rw [h, hdata]
          simp [partsLtB, h1, h2] at hxy hyx
          rw [hab, ih bs hxy hyx]

/-- The packer's path order is total. -/
theorem itemLe_total : ∀ a b : SrcItem, itemLe a b ∨ itemLe b a := by
  intro a b
  by_cases h : partsLtB b.parts a.parts = true
  · right
    have : partsLtB a.parts b.parts = false := by
      by_contra hc
      rw [Bool.not_eq_false] at hc
      have := partsLtB_trans _ _ _ h hc
      rw [partsLtB_irrefl] at this
      cases this
    simp [itemLe, partsLeB, this]
  · left
    simp [itemLe, partsLeB, Bool.not_eq_true] at h ⊢
    exact h

/-- The packer's path order is transitive. -/
theorem itemLe_trans :
    ∀ a b c : SrcItem, itemLe a b → itemLe b c → itemLe a c := by
  intro a b c hab hbc
  simp only [itemLe, partsLeB, Bool.not_eq_true'] at hab hbc ⊢
  by_contra hc
  rw [Bool.not_eq_false] at hc
  by_cases h1 : partsLtB b.parts c.parts = true
  · have := partsLtB_trans _ _ _ h1 hc
    rw [this] at hab
    cases hab
  · rw [Bool.not_eq_true] at h1
    have hbceq := partsLtB_tricho _ _ h1 hbc
    rw [← hbceq] at hc
    rw [hc] at hab
    cases hab

/-- C6, counterexample.  "Each group lexicographically sorted by full
path" fails on the code when read as path-STRING order: for the three
directories `a`, `a/x`, `a.b`, `pathlib` sorts by component tuples and
the packed stream is `a`, `a/x`, `a.b` — but as strings
`"a/x" > "a.b"` (`/` is code point 47, `.` is 46), so the stream is
not pairwise in path-string order. -/
theorem C6_counterexample :
    keptEntries slashDotTree = [dirA, dirAX, dirADotB] ∧
    ¬ (keptEntries slashDotTree).Pairwise entOrdByPathString := by
  have hk : keptEntries slashDotTree = [dirA, dirAX, dirADotB] := by decide
  refine ⟨hk, ?_⟩
  rw [hk]
  intro hp
  have h12 : entOrdByPathString dirAX dirADotB :=
    (List.pairwise_cons.mp (List.pairwise_cons.mp hp).2).1 dirADotB (by simp)
  rcases h12 with ⟨h1, h2⟩ | ⟨h1, h2⟩
  · exact absurd h2 (by decide)
  · exact absurd h2 (by decide)

/-- C6, amended.  In every packed image the entries satisfy, pairwise
in stream order: directories strictly precede files, and entries of
equal kind are in nondecreasing `pathlib` path order — lexicographic
over the tuple of path components, which is the order `sorted()` uses
on `Path` objects (not code-point order of the joined path string; the
two differ, see `C6_counterexample`).  In particular every directory
entry whose path is a component-prefix of a later file entry's path
appears earlier in the stream, since every directory precedes every
file. -/
theorem C6_ordering (tree : List SrcItem) :
    (keptEntries tree).Pairwise entOrd := by
  haveI : IsTotal SrcItem itemLe := ⟨itemLe_total⟩
  haveI : IsTrans SrcItem itemLe := ⟨fun a b c => itemLe_trans a b c⟩
  have hsorted : (List.insertionSort itemLe tree).Pairwise itemLe :=
    List.sorted_insertionSort itemLe tree
  rw [keptEntries, collect_files, List.filter_append, List.pairwise_append]
  have hdir : ∀ x ∈ ((List.insertionSort itemLe tree).filter
      (fun it => decide (it.kind = EntryKind.dir))).filter
        (fun it => !(pack_file it).isEmpty), x.kind = EntryKind.dir := by
    intro x hx
    have := (List.mem_filter.mp ((List.mem_filter.mp hx).1)).2
    simpa using this
  have hfile : ∀ x ∈ ((List.insertionSort itemLe tree).filter keepFileB).filter
      (fun it => !(pack_file it).isEmpty), x.kind = EntryKind.file := by
    intro x hx
    have := (List.mem_filter.mp ((List.mem_filter.mp hx).1)).2
    simp only [keepFileB, Bool.and_eq_true, decide_eq_true_eq] at this
    exact this.1.1
  have hp1 : (((List.insertionSort itemLe tree).filter
      (fun it => decide (it.kind = EntryKind.dir))).filter
        (fun it => !(pack_file it).isEmpty)).Pairwise itemLe :=
    List.Pairwise.sublist
      ((List.filter_sublist _).trans (List.filter_sublist _)) hsorted
  have hp2 : (((List.insertionSort itemLe tree).filter keepFileB).filter
      (fun it => !(pack_file it).isEmpty)).Pairwise itemLe :=
    List.Pairwise.sublist
      ((List.filter_sublist _).trans (List.filter_sublist _)) hsorted
  refine ⟨?_, ?_, ?_⟩
  · exact List.Pairwise.imp_of_mem
      (fun ha hb hR => Or.inr ⟨by rw [hdir _ ha, hdir _ hb], hR⟩) hp1
  · exact List.Pairwise.imp_of_mem
      (fun ha hb hR => Or.inr ⟨by rw [hfile _ ha, hfile _ hb], hR⟩) hp2
  · intro a ha b hb
    exact Or.inl ⟨hdir _ ha, hfile _ hb⟩

/-- C8.  Packing is a deterministic function of the source tree
contents: two enumerations of the same entries (any traversal order,
paths pairwise distinct as they are in a real directory tree) produce
byte-for-byte identical images and identical returned counts and
sizes.  In particular packing the same unchanged tree twice reproduces
the same image. -/
theorem C8_deterministic (t1 t2 : List SrcItem) (hperm : t1.Perm t2)
    (hnd : (t1.map SrcItem.pathStr).Nodup) :
    make_simple_fs true t1 = make_simple_fs true t2 := by
  haveI : IsTotal SrcItem itemLe := ⟨itemLe_total⟩
  haveI : IsTrans SrcItem itemLe := ⟨fun a b c => itemLe_trans a b c⟩
  haveI hanti : IsAntisymm SrcItem
      (fun a b => itemLe a b ∧ a.pathStr ≠ b.pathStr) := by
    constructor
    intro a b hab hba
    exfalso
    apply hab.2
    have h1 : partsLtB b.parts a.parts = false := by
      have := hab.1
      simpa [itemLe, partsLeB] using this
    have h2 : partsLtB a.parts b.parts = false := by
      have := hba.1
      simpa [itemLe, partsLeB] using this
    have hparts := partsLtB_tricho _ _ h2 h1
    simp only [SrcItem.pathStr, hparts]
  have hnodup_pairwise : ∀ t : List SrcItem, (t.map SrcItem.pathStr).Nodup →
      (List.insertionSort itemLe t).Pairwise
        (fun a b => a.pathStr ≠ b.pathStr) := by
    intro t hnd'
    have hmapperm : ((List.insertionSort itemLe t).map SrcItem.pathStr).Perm
        (t.map SrcItem.pathStr) := (List.perm_insertionSort itemLe t).map _
    have : ((List.insertionSort itemLe t).map SrcItem.pathStr).Nodup :=
      hmapperm.nodup_iff.mpr hnd'
    exact List.pairwise_map.mp this
  have hsorteq : List.insertionSort itemLe t1 = List.insertionSort itemLe t2 := by
    apply List.eq_of_perm_of_sorted
      (r := fun a b => itemLe a b ∧ a.pathStr ≠ b.pathStr)
    · exact ((List.perm_insertionSort itemLe t1).trans hperm).trans
        (List.perm_insertionSort itemLe t2).symm
    · exact (List.sorted_insertionSort itemLe t1).and (hnodup_pairwise t1 hnd)
    · have hnd2 : (t2.map SrcItem.pathStr).Nodup :=
        (hperm.map SrcItem.pathStr).nodup_iff.mp hnd
      exact (List.sorted_insertionSort itemLe t2).and (hnodup_pairwise t2 hnd2)
  have hcf : collect_files t1 = collect_files t2 := by
    rw [collect_files, collect_files, hsorteq]
  simp only [make_simple_fs, hcf]

/-- Witness for `C8_deterministic`: the two enumeration orders of the
demo tree are a permutation with distinct paths, and they pack to the
same image. -/
theorem C8_deterministic_witness :
    (demoTree.Perm demoTreeRev ∧ (demoTree.map SrcItem.pathStr).Nodup) ∧
    make_simple_fs true demoTree = make_simple_fs true demoTreeRev :=
  ⟨⟨List.Perm.swap binDir helloFile [], by decide⟩,
    C8_deterministic demoTree demoTreeRev
      (List.Perm.swap binDir helloFile []) (by decide)⟩

/-- Setting a byte past a prefix happens inside the suffix. -/
theorem list_set_append_right {α : Type} (a : List α) (b : List α) (k : Nat)
    (x : α) : (a ++ b).set (a.length + k) x = a ++ b.set k x := by
  induction a with
  | nil => simp
  | cons y ys ih =>
    simp only [List.cons_append, List.length_cons]
    rw [show ys.length + 1 + k = (ys.length + k) + 1 by omega]
    simp [List.set, ih]

/-- Setting a byte inside a prefix leaves the suffix alone. -/
theorem list_set_append_left {α : Type} (a : List α) (b : List α) (k : Nat)
    (x : α) (h : k < a.length) :
    (a ++ b).set k x = a.set k x ++ b := by
  induction a generalizing k with
  | nil => simp at h
  | cons y ys ih =>
    cases k with
    | zero => rfl
    | succ k =>
      have hk : k < ys.length := by simpa using h
      calc ((y :: ys) ++ b).set (k + 1) x
          = y :: ((ys ++ b).set k x) := rfl
        _ = y :: (ys.set k x ++ b) := by rw [ih k hk]
        _ = ((y :: ys).set (k + 1) x) ++ b := rfl

/-- The serialized block of one entry, with its entry magic split off. -/
theorem packEntry_decomp (nb d : List Nat) (ft mo : Nat) :
    packEntry nb d ft mo =
      le32enc FILE_MAGIC ++
        (le32enc nb.length ++ (le32enc d.length ++ (le32enc ft ++ (le32enc mo ++
          (le32enc 0 ++ (le32enc 0 ++ (le32enc 0 ++
            ((nb ++ List.replicate (align_to nb.length 4 - nb.length) 0) ++
              (d ++ List.replicate
                (align_to d.length BLOCK_SIZE - d.length) 0))))))))) := by
  simp [packEntry, List.append_assoc]

/-- Every emitted block starts with the four entry-magic bytes,
followed by at least 16 more bytes. -/
theorem pack_file_head (it : SrcItem) (h : (pack_file it).isEmpty = false) :
    pack_file it = le32enc FILE_MAGIC ++ (pack_file it).drop 4 ∧
      16 ≤ ((pack_file it).drop 4).length := by
  by_cases hskip : skipNameB it.name = true
  · simp [pack_file, hskip] at h
  · replace hskip : skipNameB it.name = false := by simpa using hskip
    cases hkind : it.kind with
    | other => simp [pack_file, hskip, hkind] at h
    | file =>
      have hpf : pack_file it =
          packEntry (utf8Bytes it.pathStr) it.data FILE_TYPE_FILE 0o644 := by
        simp [pack_file, hskip, hkind]
      rw [hpf, packEntry_decomp, List.drop_left' (length_le32enc _)]
      refine ⟨rfl, ?_⟩
      simp [le32enc, List.length_append]
    | dir =>
      have hpf : pack_file it =
          packEntry (utf8Bytes it.pathStr) [] FILE_TYPE_DIR 0o755 := by
        simp [pack_file, hskip, hkind]
      rw [hpf, packEntry_decomp, List.drop_left' (length_le32enc _)]
      refine ⟨rfl, ?_⟩
      simp [le32enc, List.length_append]

/-- Overwriting any one of the four entry-magic bytes with a different
byte value changes the decoded entry magic. -/
theorem le32dec_set_magic (j b : Nat) (hj : j < 4) (_hb : b < 256)
    (hne : b ≠ (le32enc FILE_MAGIC).getD j 0) :
    le32dec ((le32enc FILE_MAGIC).set j b) ≠ FILE_MAGIC := by
  interval_cases j
  · intro hEq
    apply hne
    show b = 69
    have h2 : b + 256 * 76 + 65536 * 73 + 16777216 * 70 = 1179208773 := hEq
    omega
  · intro hEq
    apply hne
    show b = 76
    have h2 : 69 + 256 * b + 65536 * 73 + 16777216 * 70 = 1179208773 := hEq
    omega
  · intro hEq
    apply hne
    show b = 73
    have h2 : 69 + 256 * 76 + 65536 * b + 16777216 * 70 = 1179208773 := hEq
    omega
  · intro hEq
    apply hne
    show b = 70
    have h2 : 69 + 256 * 76 + 65536 * 73 + 16777216 * b = 1179208773 := hEq
    omega

/-- An inspection step that lands on a block whose entry magic has one
byte overwritten with a different value stops with `BadEntryMagic` at
the current index, listing only the entries accumulated so far. -/
theorem inspectLoop_badmagic (j b : Nat) (hj : j < 4) (hb : b < 256)
    (hne : b ≠ (le32enc FILE_MAGIC).getD j 0) (rest : List Nat)
    (hr : 16 ≤ rest.length) (m i : Nat) (acc : List InspEntry) :
    inspectLoop (m + 1) i ((le32enc FILE_MAGIC).set j b ++ rest) acc =
      (acc.reverse, some (InspErr.badEntryMagic i)) := by
  have hlen4 : ((le32enc FILE_MAGIC).set j b).length = 4 := by
    simp [le32enc]
  have htt : ((((le32enc FILE_MAGIC).set j b ++ rest).take 32).drop 0).take 4 =
      (le32enc FILE_MAGIC).set j b := by
    rw [List.drop_zero, List.take_take]
    have hmin : min 4 32 = 4 := rfl
    rw [hmin]
    exact List.take_left' hlen4
  have hmag : u32at (((le32enc FILE_MAGIC).set j b ++ rest).take 32) 0 ≠
      FILE_MAGIC := by
    rw [u32at, htt]
    exact le32dec_set_magic j b hj hb hne
  have hglen : ¬ ((((le32enc FILE_MAGIC).set j b ++ rest).take 32).length < 20) := by
    rw [List.length_take, List.length_append, hlen4]
    omega
  simp only [inspectLoop]
  rw [if_neg hglen, if_pos hmag]

/-- Inspecting an image whose `i`-th entry block has one entry-magic
byte overwritten (with a valid byte value different from the original)
lists exactly the first `i` entries and stops with `BadEntryMagic i`. -/
theorem inspect_corrupted (ks : List SrcItem) (i : Nat) (hi : i < ks.length)
    (hks : ∀ it ∈ ks, (pack_file it).isEmpty = false ∧ GoodItem it)
    (hc : ks.length < 2 ^ 32) (j b : Nat) (hj : j < 4) (hb : b < 256)
    (hne : b ≠ (le32enc FILE_MAGIC).getD j 0) (pad : List Nat) :
    inspect_simple_fs
      (MAGIC ++ (le32enc ks.length ++ (le32enc 0 ++
        (((ks.map pack_file).take i).flatten ++
          ((le32enc FILE_MAGIC).set j b ++
            ((pack_file ks[i]).drop 4 ++
              (((ks.map pack_file).drop (i + 1)).flatten ++ pad))))))) =
      ((ks.take i).map summ, some (InspErr.badEntryMagic i)) := by
  have htake8 :
      (MAGIC ++ (le32enc ks.length ++ (le32enc 0 ++
        (((ks.map pack_file).take i).flatten ++
          ((le32enc FILE_MAGIC).set j b ++
            ((pack_file ks[i]).drop 4 ++
              (((ks.map pack_file).drop (i + 1)).flatten ++ pad))))))).take 8 =
      MAGIC := List.take_left' rfl
  have hdrop8 :
      (MAGIC ++ (le32enc ks.length ++ (le32enc 0 ++
        (((ks.map pack_file).take i).flatten ++
          ((le32enc FILE_MAGIC).set j b ++
            ((pack_file ks[i]).drop 4 ++
              (((ks.map pack_file).drop (i + 1)).flatten ++ pad))))))).drop 8 =
      le32enc ks.length ++ (le32enc 0 ++
        (((ks.map pack_file).take i).flatten ++
          ((le32enc FILE_MAGIC).set j b ++
            ((pack_file ks[i]).drop 4 ++
              (((ks.map pack_file).drop (i + 1)).flatten ++ pad))))) :=
    List.drop_left' rfl
  have hcnt :
      ((MAGIC ++ (le32enc ks.length ++ (le32enc 0 ++
        (((ks.map pack_file).take i).flatten ++
          ((le32enc FILE_MAGIC).set j b ++
            ((pack_file ks[i]).drop 4 ++
              (((ks.map pack_file).drop (i + 1)).flatten ++
                pad))))))).drop 8).take 4 = le32enc ks.length := by
    rw [hdrop8]; exact List.take_left' (length_le32enc _)
  have hgroup :
      MAGIC ++ (le32enc ks.length ++ (le32enc 0 ++
        (((ks.map pack_file).take i).flatten ++
          ((le32enc FILE_MAGIC).set j b ++
            ((pack_file ks[i]).drop 4 ++
              (((ks.map pack_file).drop (i + 1)).flatten ++ pad)))))) =
      (MAGIC ++ le32enc ks.length ++ le32enc 0) ++
        (((ks.map pack_file).take i).flatten ++
          ((le32enc FILE_MAGIC).set j b ++
            ((pack_file ks[i]).drop 4 ++
              (((ks.map pack_file).drop (i + 1)).flatten ++ pad)))) := by
    simp [List.append_assoc]
  have hdrop16 :
      (MAGIC ++ (le32enc ks.length ++ (le32enc 0 ++
        (((ks.map pack_file).take i).flatten ++
          ((le32enc FILE_MAGIC).set j b ++
            ((pack_file ks[i]).drop 4 ++
              (((ks.map pack_file).drop (i + 1)).flatten ++
                pad))))))).drop 16 =
      ((ks.map pack_file).take i).flatten ++
        ((le32enc FILE_MAGIC).set j b ++
          ((pack_file ks[i]).drop 4 ++
            (((ks.map pack_file).drop (i + 1)).flatten ++ pad))) := by
    rw [hgroup]; exact List.drop_left' (header16_length _)
  unfold inspect_simple_fs
  rw [htake8, hcnt, hdrop16, length_le32enc, le32dec_le32enc hc]
  have hkslen : (ks.take i).length = i := by
    rw [List.length_take]; omega
  have hks2 : ∀ it ∈ ks.take i, (pack_file it).isEmpty = false ∧ GoodItem it :=
    fun it hit => hks it (List.mem_of_mem_take hit)
  have hcons := inspectLoop_consume (ks.take i) hks2 (ks.length - i) 0
    ((le32enc FILE_MAGIC).set j b ++
      ((pack_file ks[i]).drop 4 ++
        (((ks.map pack_file).drop (i + 1)).flatten ++ pad))) []
  rw [hkslen, List.map_take] at hcons
  have hcount : ks.length = i + (ks.length - i) := by omega
  rw [hcount, hcons]
  have hm : ks.length - i = (ks.length - i - 1) + 1 := by omega
  rw [hm]
  obtain ⟨hhead, h16⟩ := pack_file_head ks[i] (hks ks[i] (List.getElem_mem hi)).1
  have hr : 16 ≤ ((pack_file ks[i]).drop 4 ++
      (((ks.map pack_file).drop (i + 1)).flatten ++ pad)).length := by
    rw [List.length_append]; omega
  rw [inspectLoop_badmagic j b hj hb hne _ hr]
  simp

/-- C7.  Take any packed image (existing source, the usual 32-bit
bounds) and any entry index `i`.  Overwriting any single byte of that
entry's 4-byte `entry_magic` (position `j < 4`, new byte value `b`
different from the original byte at that position) makes the inspector
list exactly the entries before index `i` and stop with a structural
error naming entry index `i` — no silent misread and no further
entries listed. -/
theorem C7_corruption (tree : List SrcItem)
    (hg : ∀ it ∈ keptEntries tree, GoodItem it)
    (hc : (keptEntries tree).length < 2 ^ 32)
    (i : Nat) (hi : i < (keptEntries tree).length)
    (j : Nat) (hj : j < 4) (b : Nat) (hb : b < 256)
    (hne : b ≠ (le32enc FILE_MAGIC).getD j 0) :
    inspect_simple_fs
        ((make_simple_fs true tree).image.set (entryOffset tree i + j) b) =
      (((keptEntries tree).take i).map summ,
        some (InspErr.badEntryMagic i)) := by
  have hks : ∀ it ∈ keptEntries tree,
      (pack_file it).isEmpty = false ∧ GoodItem it := by
    intro it hit
    refine ⟨?_, hg it hit⟩
    have := (List.mem_filter.mp hit).2
    simpa using this
  have hilen : i < ((keptEntries tree).map pack_file).length := by
    rw [List.length_map]; exact hi
  have hsplit : ((keptEntries tree).map pack_file).flatten =
      (((keptEntries tree).map pack_file).take i).flatten ++
        (pack_file (keptEntries tree)[i] ++
          (((keptEntries tree).map pack_file).drop (i + 1)).flatten) := by
    conv_lhs => rw [← List.take_append_drop i ((keptEntries tree).map pack_file)]
    rw [List.flatten_append, List.drop_eq_getElem_cons hilen, List.flatten_cons,
      List.getElem_map]
  obtain ⟨hhead, h16⟩ :=
    pack_file_head (keptEntries tree)[i] (hks _ (List.getElem_mem hi)).1
  have him := image_decomp tree
  have him2 : (make_simple_fs true tree).image =
      (MAGIC ++ le32enc (keptEntries tree).length ++ le32enc 0) ++
        (((keptEntries tree).map pack_file).flatten ++
          List.replicate (align_to (imageBody tree).length BLOCK_SIZE -
            (imageBody tree).length) 0) := by
    rw [him, imageBody]; simp [List.append_assoc]
  have hoff : entryOffset tree i + j =
      (MAGIC ++ le32enc (keptEntries tree).length ++ le32enc 0).length +
        ((((keptEntries tree).map pack_file).take i).flatten.length + j) := by
    rw [entryOffset, List.length_flatten, header16_length]
    omega
  have hset : (make_simple_fs true tree).image.set (entryOffset tree i + j) b =
      MAGIC ++ (le32enc (keptEntries tree).length ++ (le32enc 0 ++
        ((((keptEntries tree).map pack_file).take i).flatten ++
          ((le32enc FILE_MAGIC).set j b ++
            ((pack_file (keptEntries tree)[i]).drop 4 ++
              ((((keptEntries tree).map pack_file).drop (i + 1)).flatten ++
                List.replicate (align_to (imageBody tree).length BLOCK_SIZE -
                  (imageBody tree).length) 0)))))) := by
    conv_lhs =>
      rw [him2, hoff, list_set_append_right, hsplit]
      simp only [List.append_assoc]
      rw [list_set_append_right, hhead]
      simp only [List.append_assoc]
      rw [list_set_append_left _ _ _ _ (by simpa [le32enc] using hj)]
  rw [hset]
  exact inspect_corrupted (keptEntries tree) i hi hks hc j b hj hb hne _

/-- Witness for `C7_corruption`: in the packed demo image, overwrite
byte 0 of entry 1's entry magic with 0 (the original byte is 69); the
inspector lists only entry 0 and reports `BadEntryMagic` at index 1. -/
theorem C7_corruption_witness :
    ((∀ it ∈ keptEntries demoTree, GoodItem it) ∧
      (keptEntries demoTree).length < 2 ^ 32 ∧
      1 < (keptEntries demoTree).length ∧ 0 < 4 ∧ 0 < 256 ∧
      (0 : Nat) ≠ (le32enc FILE_MAGIC).getD 0 0) ∧
    inspect_simple_fs
        ((make_simple_fs true demoTree).image.set (entryOffset demoTree 1 + 0) 0) =
      (((keptEntries demoTree).take 1).map summ,
        some (InspErr.badEntryMagic 1)) :=
  ⟨⟨by decide, by decide, by decide, by decide, by decide, by decide⟩,
    C7_corruption demoTree (by decide) (by decide) 1 (by decide) 0 (by decide)
      0 (by decide) (by decide)⟩
